import Mathlib

/-!
Verification of the runtime asset-optimization pipeline and surrounding
application systems of the bevy_san_miguel_scene viewer (src/main.rs),
against its natural-language specification.

Entities are modelled as naturals; the scene graph (Bevy's Children
component hierarchy) is a finite tree.  Systems that iterate queries and
issue commands are modelled as pure functions from a world snapshot to the
updated snapshot (commands applied at the end of the pass, as Bevy does),
together with the list of entities the pass visited, in order.
-/

/-- A node of the scene graph: its entity id and the subtrees of its
children (the order of the `Children` component). -/
inductive SceneTree where
  | node (eid : Nat) (children : List SceneTree)
deriving Repr

def SceneTree.eid : SceneTree → Nat
  | .node i _ => i

def SceneTree.children : SceneTree → List SceneTree
  | .node _ cs => cs

/-- `all_children` from src/main.rs, with the closure replaced by the list
of entities it is invoked on, in invocation order: for each child, first
recurse into the child's own children (when it has a `Children` component),
then visit the child itself. -/
def all_children : List SceneTree → List Nat
  | [] => []
  | SceneTree.node i cs :: ts => all_children cs ++ i :: all_children ts

/-- The entities visited when `all_children` recurses through a subtree
rooted at `t`: the whole of `t`'s descendants, then `t` itself. -/
def visitTree (t : SceneTree) : List Nat :=
  all_children t.children ++ [t.eid]

/-- `a` is visited strictly before `b` in the visit list `l`. -/
def VisitedBefore (a b : Nat) (l : List Nat) : Prop :=
  List.Sublist [a, b] l

/-- One scene root as seen by `proc_scene`'s queries: its entity id,
whether it currently carries the `PostProcScene` marker, and its
`Children` component when it has one (`none` while the scene has not yet
spawned children under it). -/
structure ProcRoot where
  rid : Nat
  marker : Bool
  children : Option (List SceneTree)
deriving Repr

/-- `proc_scene`'s action on a single root (the body of the
`materials_query` loop in src/main.rs): roots without the marker are not
matched by the query at all; a marked root with a `Children` component has
its subtree visited by `all_children` and then gets
`remove::<PostProcScene>()`; a marked root without children is left
untouched.  Returns the updated root and the entities visited. -/
def procSceneRoot (r : ProcRoot) : ProcRoot × List Nat :=
  if r.marker then
    match r.children with
    | some cs => ({ r with marker := false }, all_children cs)
    | none => (r, [])
  else (r, [])

/-- The whole `proc_scene` pass over the roots of the world: each root is
updated independently, and the visited entities are concatenated. -/
def proc_scene (w : List ProcRoot) : List ProcRoot × List Nat :=
  (w.map fun r => (procSceneRoot r).1, (w.map fun r => (procSceneRoot r).2).flatten)

/-- Iterating the per-root update over `n` further processing cycles. -/
def procCycles : Nat → ProcRoot → ProcRoot
  | 0, r => r
  | n + 1, r => procCycles n (procSceneRoot r).1

/-- The systems registered in the `Update` schedule by `main`
(src/main.rs, the `add_systems(Update, (...))` call). -/
inductive UpdateSystem where
  | generateMipmaps
  | consolidateMaterialInstances
  | procScene
  | inputSystem
  | benchmarkSystem
deriving Repr, DecidableEq

/-- The tuple of systems `main` adds to `Update`, in source-text order. -/
def updateSystems : List UpdateSystem :=
  [UpdateSystem.generateMipmaps, UpdateSystem.consolidateMaterialInstances,
   UpdateSystem.procScene, UpdateSystem.inputSystem, UpdateSystem.benchmarkSystem]

/-- The explicit ordering constraints `main` attaches to those systems:
the tuple carries no `.chain()`, `.before(...)` or `.after(...)` call, so
the set of constraints is empty — Bevy treats a plain tuple as an
unordered collection, and the scheduler may execute its members in any
order each cycle. -/
def updateOrderingConstraints : List (UpdateSystem × UpdateSystem) := []

/-- `a` executes strictly before `b` in the order `l`. -/
def VisitedBeforeSys (a b : UpdateSystem) (l : List UpdateSystem) : Prop :=
  List.Sublist [a, b] l

/-- An execution order the scheduler is allowed to pick for one `Update`
run: a permutation of the registered systems that respects every explicit
ordering constraint. -/
def ValidScheduleOrder (order : List UpdateSystem) : Prop :=
  order.Perm updateSystems ∧
    ∀ c ∈ updateOrderingConstraints, VisitedBeforeSys c.1 c.2 order

/-- The command-line switches of `Args` (src/main.rs). -/
structure Args where
  convert : Bool
  autoInstance : Bool
  minimal : Bool
  no_frustum_culling : Bool
  p720 : Bool
deriving Repr, DecidableEq

/-- The externally observable actions of `main`, in the order `main`
performs them. -/
inductive MainEvent where
  | convertImages
  | changeGltf
  | appRun
deriving Repr, DecidableEq

/-- `main`'s control flow (src/main.rs): when the `convert` switch is
passed it calls `convert_images_to_ktx2()` and then
`change_gltf_to_use_ktx2()`, once each, before building and running the
interactive app; otherwise it goes straight to the app. -/
def mainEvents (args : Args) : List MainEvent :=
  (if args.convert then [MainEvent.convertImages, MainEvent.changeGltf] else [])
    ++ [MainEvent.appRun]

/-- An entity as seen by `add_no_frustum_culling`'s query: whether it holds
a `Handle<StandardMaterial>` and whether it already has the
`NoFrustumCulling` component. -/
structure CullEntity where
  eid : Nat
  hasStdMat : Bool
  noFrustumCulling : Bool
deriving Repr, DecidableEq

/-- The effect of one pass on one entity: the query
`(Without<NoFrustumCulling>, With<Handle<StandardMaterial>>)` selects the
entity iff it has a material handle and lacks `NoFrustumCulling`, in which
case `NoFrustumCulling` is inserted. -/
def cullStep (e : CullEntity) : CullEntity :=
  if e.hasStdMat && !e.noFrustumCulling then { e with noFrustumCulling := true }
  else e

/-- `add_no_frustum_culling` (src/main.rs): insert `NoFrustumCulling` on
every entity matched by the query; all other entities are untouched. -/
def add_no_frustum_culling (w : List CullEntity) : List CullEntity :=
  w.map cullStep

/-- Which of the three fixed camera transforms (or some other transform)
the camera currently holds. -/
inductive CamTag where
  | pos1
  | pos2
  | pos3
  | other
deriving Repr, DecidableEq

/-- The state `benchmark` (src/main.rs) keeps across invocations: its
`Local<Option<Instant>>` start time (instants modelled as naturals), the
`Local<u32>` frame counter and per-step frame count, and the camera's
transform. -/
structure BenchState where
  benchStarted : Option Nat
  benchFrame : Nat
  countPerStep : Nat
  camera : CamTag
deriving Repr, DecidableEq

/-- One invocation of `benchmark` (src/main.rs).  `bPressed`: whether `B`
was just pressed this frame; `rawCount`: the value of
`(2.0 / time.delta_seconds()) as u32`; `now`: the current instant;
`hasCamera`: whether `camera.get_single_mut()` succeeds.  On a press with
no benchmark running the state is (re)initialised; then, if a benchmark is
running and a camera exists, the camera is repositioned at frames 0,
`count_per_step`, `2*count_per_step` and `3*count_per_step` (the last also
ends the benchmark), and finally `bench_frame` is incremented. -/
def benchmarkStep (bPressed : Bool) (rawCount now : Nat) (hasCamera : Bool)
    (s : BenchState) : BenchState :=
  let s :=
    if bPressed && s.benchStarted.isNone then
      { s with benchStarted := some now, benchFrame := 0,
               countPerStep := max rawCount 30 }
    else s
  if s.benchStarted.isNone then s
  else if !hasCamera then s
  else
    let s :=
      if s.benchFrame = 0 then { s with camera := CamTag.pos1 }
      else if s.benchFrame = s.countPerStep then { s with camera := CamTag.pos2 }
      else if s.benchFrame = s.countPerStep * 2 then { s with camera := CamTag.pos3 }
      else if s.benchFrame = s.countPerStep * 3 then
        { s with benchStarted := none, benchFrame := 0, camera := CamTag.pos1 }
      else s
    { s with benchFrame := s.benchFrame + 1 }

/-- Modelled from the spec: the Mipmap Generator of §4.1 lives in the
`mipmap_generator` module, which is not present under src/.  The sequence
of level dimensions: starting from the source dimensions, each level
halves each dimension (floor division), a dimension that reaches 0 clamps
to 1, and the chain terminates at the 1×1 level. -/
def mipChainDims (w h : Nat) : List (Nat × Nat) :=
  if w ≤ 1 ∧ h ≤ 1 then [(w, h)]
  else (w, h) :: mipChainDims (max 1 (w / 2)) (max 1 (h / 2))
termination_by max w h
decreasing_by
  rename_i hb
  have h2 : 2 ≤ max w h := by
    have : 2 ≤ w ∨ 2 ≤ h := by omega
    rcases this with h' | h'
    · exact le_trans h' (Nat.le_max_left w h)
    · exact le_trans h' (Nat.le_max_right w h)
  have k1 : w / 2 ≤ max w h / 2 := Nat.div_le_div_right (Nat.le_max_left _ _)
  have k2 : h / 2 ≤ max w h / 2 := Nat.div_le_div_right (Nat.le_max_right _ _)
  refine Nat.max_lt.mpr ⟨Nat.max_lt.mpr ⟨?_, ?_⟩, Nat.max_lt.mpr ⟨?_, ?_⟩⟩ <;> omega

/-- Modelled from the spec: generation terminates at the 1×1 level or at
the configured level-count limit, whichever comes first, so the chain
length is clamped to the configured value. -/
def mipChainLevels (cap w h : Nat) : List (Nat × Nat) :=
  (mipChainDims w h).take cap

/-- A content fingerprint: a fixed-width digest, modelled as a natural. -/
abbrev Fingerprint := Nat

/-- A compressed blob: a byte sequence. -/
abbrev Blob := List Nat

/-- Modelled from the spec: the Compression Cache of §4.3 (part of the
`mipmap_generator` module, not present under src/): a persistent
fingerprint-keyed blob store on durable storage. -/
abbrev Cache := List (Fingerprint × Blob)

/-- Modelled from the spec: `lookup(fingerprint) -> Option<Blob>` over the
persisted entries. -/
def Cache.lookup : Cache → Fingerprint → Option Blob
  | [], _ => none
  | (g, b) :: rest, f => if g = f then some b else Cache.lookup rest f

/-- Modelled from the spec: `store(fingerprint, blob)`; an entry already
present under the fingerprint is overwritten (last-writer-wins), otherwise
the entry is appended. -/
def Cache.store : Cache → Fingerprint → Blob → Cache
  | [], f, b => [(f, b)]
  | (g, c) :: rest, f, b =>
    if g = f then (f, b) :: rest else (g, c) :: Cache.store rest f b

/-- Modelled from the spec: the configuration surface of §6 that the
Orchestrator consults (the `mipmap_generator` module's settings are not
present under src/). -/
structure PipelineSettings where
  compressionEnabled : Bool
  cacheEnabled : Bool
deriving Repr, DecidableEq

/-- Modelled from the spec: an `ImageAsset` (§3): raw pixel buffer,
dimensions, the `processed` flag and the current texture payload. -/
structure ImageAsset where
  sourceData : List Nat
  width : Nat
  height : Nat
  processed : Bool
  payload : List Nat
deriving Repr, DecidableEq

/-- Modelled from the spec: the Content Hasher — a deterministic digest
over the raw bytes and the processing parameters. -/
def contentFingerprint (data params : List Nat) : Fingerprint :=
  (data ++ params).foldl (fun acc x => acc * 31 + x + 1) 7

/-- The fingerprint the Orchestrator computes for an asset: source bytes
plus mipmap/compression policy (§4.4). -/
def assetFingerprint (cfg : PipelineSettings) (a : ImageAsset) : Fingerprint :=
  contentFingerprint a.sourceData
    [a.width, a.height, if cfg.compressionEnabled then 1 else 0]

/-- Which path handled an asset in one Orchestrator visit. -/
inductive ProcPath where
  | skipped
  | cacheHit
  | generated
deriving Repr, DecidableEq

/-- Modelled from the spec: the payload produced by running the Mipmap
Generator and then the Texture Compressor on a cache miss; when
compression is disabled the uncompressed chain passes through. -/
def generatedPayload (cfg : PipelineSettings) (a : ImageAsset) : List Nat :=
  (if cfg.compressionEnabled then 1 else 0)
    :: (mipChainDims a.width a.height).foldr
        (fun d acc => d.1 :: d.2 :: acc) a.sourceData

/-- Modelled from the spec: the Texture Pipeline Orchestrator's visit of
one referenced `ImageAsset` (§4.4): an asset with `processed == true` is
skipped; otherwise exactly one generate-or-fetch path executes (cache hit
decodes the cached blob into the payload, miss regenerates) and the asset
is marked `processed = true` unconditionally afterward. -/
def processAsset (cfg : PipelineSettings) (lookupFn : Fingerprint → Option Blob)
    (a : ImageAsset) : ImageAsset × ProcPath :=
  if a.processed then (a, ProcPath.skipped)
  else
    match (if cfg.cacheEnabled then lookupFn (assetFingerprint cfg a) else none) with
    | some blob => ({ a with payload := blob, processed := true }, ProcPath.cacheHit)
    | none =>
      ({ a with payload := generatedPayload cfg a, processed := true },
        ProcPath.generated)

/-- Modelled from the spec: a full run in which the asset is reached from
`n` material references in turn; the second component counts how many of
those visits executed a generate-or-fetch path. -/
def processRefs (cfg : PipelineSettings) (lookupFn : Fingerprint → Option Blob)
    (a : ImageAsset) : Nat → ImageAsset × Nat
  | 0 => (a, 0)
  | n + 1 =>
    let next := processAsset cfg lookupFn a
    let rest := processRefs cfg lookupFn next.1 n
    (rest.1, (if next.2 = ProcPath.skipped then 0 else 1) + rest.2)

/-- Modelled from the spec: deserializing a persisted cache entry read
from durable storage (§4.3 persisted layout): a stored entry is a length
prefix followed by the blob bytes; anything else is a deserialize
failure. -/
def deserializeEntry : List Nat → Except String Blob
  | [] => Except.error "empty cache entry"
  | n :: rest =>
    if rest.length = n then Except.ok rest
    else Except.error "truncated cache entry"

/-- Modelled from the spec: `lookup` over fallible durable storage (§4.3):
`disk f` is the raw file content for fingerprint `f`, or `none` when the
read fails; the result type is `Option Blob`, and every failure maps to
`none` (a cache miss) instead of propagating. -/
def diskLookup (disk : Fingerprint → Option (List Nat)) (f : Fingerprint) :
    Option Blob :=
  match disk f with
  | none => none
  | some raw =>
    match deserializeEntry raw with
    | Except.ok b => some b
    | Except.error _ => none

theorem all_children_cons (t : SceneTree) (ts : List SceneTree) :
    all_children (t :: ts) = visitTree t ++ all_children ts := by
  cases t with
  | node i cs => simp [all_children, visitTree, SceneTree.children, SceneTree.eid]

theorem all_children_append (xs ys : List SceneTree) :
    all_children (xs ++ ys) = all_children xs ++ all_children ys := by
  induction xs with
  | nil => simp [all_children]
  | cons t ts ih =>
    rw [List.cons_append, all_children_cons, all_children_cons, ih]
    simp

theorem visitedBefore_of_append {a b : Nat} {l₁ l₂ : List Nat}
    (ha : a ∈ l₁) (hb : b ∈ l₂) : VisitedBefore a b (l₁ ++ l₂) := by
  have h₁ : List.Sublist [a] l₁ := List.singleton_sublist.mpr ha
  have h₂ : List.Sublist [b] l₂ := List.singleton_sublist.mpr hb
  exact h₁.append h₂

/-- C3: `all_children` visits a marked subtree depth-first,
children-before-siblings: for every node in the children list, all of that
node's descendants are visited before the node itself, and everything in an
earlier sibling's subtree (the sibling included) is visited before anything
in a later sibling's subtree.  The traversal is a pure function of the
tree, so two traversals of the same unmodified subtree visit entities in
the same order. -/
theorem all_children_depth_first (cs : List SceneTree) :
    (∀ t ∈ cs, ∀ d ∈ all_children t.children,
        VisitedBefore d t.eid (all_children cs)) ∧
    (∀ l₁ t ts, cs = l₁ ++ t :: ts →
        ∀ a ∈ visitTree t, ∀ t' ∈ ts, ∀ b ∈ visitTree t',
          VisitedBefore a b (all_children cs)) := by
  constructor
  · intro t ht d hd
    obtain ⟨l₁, l₂, rfl⟩ := List.append_of_mem ht
    rw [all_children_append, all_children_cons]
    have h := @visitedBefore_of_append d t.eid
      (all_children l₁ ++ all_children t.children) ([t.eid] ++ all_children l₂)
      (by simp [hd]) (by simp)
    simpa [visitTree, List.append_assoc] using h
  · intro l₁ t ts hcs a ha t' ht' b hb
    subst hcs
    obtain ⟨l₂, l₃, rfl⟩ := List.append_of_mem ht'
    rw [all_children_append, all_children_cons, all_children_append,
      all_children_cons]
    have h := @visitedBefore_of_append a b
      (all_children l₁ ++ (visitTree t ++ all_children l₂))
      (visitTree t' ++ all_children l₃)
      (by simp [ha]) (by simp [hb])
    simpa [List.append_assoc] using h

/-- Witness for C3 on the concrete subtree
`[node 1 [node 2 []], node 3 []]`: entity 2 (a descendant of node 1) is
visited before 1, and everything of node 1's subtree is visited before
node 3. -/
theorem all_children_depth_first_witness :
    VisitedBefore 2 1
        (all_children [SceneTree.node 1 [SceneTree.node 2 []], SceneTree.node 3 []]) ∧
    VisitedBefore 1 3
        (all_children [SceneTree.node 1 [SceneTree.node 2 []], SceneTree.node 3 []]) := by
  constructor
  · exact (all_children_depth_first
        [SceneTree.node 1 [SceneTree.node 2 []], SceneTree.node 3 []]).1
      (SceneTree.node 1 [SceneTree.node 2 []]) (by simp) 2
      (by simp [all_children, SceneTree.children])
  · exact (all_children_depth_first
        [SceneTree.node 1 [SceneTree.node 2 []], SceneTree.node 3 []]).2
      [] (SceneTree.node 1 [SceneTree.node 2 []]) [SceneTree.node 3 []] rfl
      1 (by simp [visitTree, all_children, SceneTree.children, SceneTree.eid])
      (SceneTree.node 3 []) (by simp)
      3 (by simp [visitTree, all_children, SceneTree.children, SceneTree.eid])

theorem procSceneRoot_unmarked (r : ProcRoot) (h : r.marker = false) :
    procSceneRoot r = (r, []) := by
  simp [procSceneRoot, h]

theorem procCycles_unmarked (n : Nat) (r : ProcRoot) (h : r.marker = false) :
    procCycles n r = r := by
  induction n with
  | zero => rfl
  | succ n ih => simp [procCycles, procSceneRoot_unmarked r h, ih]

/-- C2: for every scene root carrying `PostProcScene`: the pass leaves
unmarked roots alone; once the root has children, one pass visits the whole
subtree via `all_children` and removes the marker, and in all later cycles
the pass performs no further work on that root (it is never revisited);
while the root has no children the marker stays in place, so the node
simply accumulates for a later cycle. -/
theorem proc_scene_marker_lifecycle (w : List ProcRoot) (i : Nat) (r : ProcRoot)
    (h : w[i]? = some r) :
    (proc_scene w).1[i]? = some (procSceneRoot r).1 ∧
    (r.marker = true → r.children = none → procSceneRoot r = (r, [])) ∧
    (∀ cs, r.marker = true → r.children = some cs →
      (procSceneRoot r).1.marker = false ∧
      (procSceneRoot r).2 = all_children cs ∧
      ∀ n, procCycles n (procSceneRoot r).1 = (procSceneRoot r).1 ∧
        (procSceneRoot (procCycles n (procSceneRoot r).1)).2 = []) := by
  refine ⟨?_, ?_, ?_⟩
  · simp only [proc_scene, List.getElem?_map, h, Option.map_some']
  · intro hm hc
    simp [procSceneRoot, hm, hc]
  · intro cs hm hc
    have hm' : (procSceneRoot r).1.marker = false := by
      simp [procSceneRoot, hm, hc]
    refine ⟨hm', by simp [procSceneRoot, hm, hc], ?_⟩
    intro n
    rw [procCycles_unmarked n _ hm']
    exact ⟨rfl, by rw [procSceneRoot_unmarked _ hm']⟩

/-- Witness for C2 at the concrete root `⟨0, marked, children [node 5 []]⟩`:
the pass clears the marker, visits entity 5, and two further cycles leave
the root unchanged. -/
theorem proc_scene_marker_lifecycle_witness :
    (procSceneRoot ⟨0, true, some [SceneTree.node 5 []]⟩).1.marker = false ∧
    (procSceneRoot ⟨0, true, some [SceneTree.node 5 []]⟩).2 = [5] ∧
    procCycles 2 (procSceneRoot ⟨0, true, some [SceneTree.node 5 []]⟩).1
      = (procSceneRoot ⟨0, true, some [SceneTree.node 5 []]⟩).1 := by
  have h := (proc_scene_marker_lifecycle [⟨0, true, some [SceneTree.node 5 []]⟩] 0
      ⟨0, true, some [SceneTree.node 5 []]⟩ rfl).2.2 [SceneTree.node 5 []] rfl rfl
  refine ⟨h.1, ?_, (h.2.2 2).1⟩
  rw [h.2.1]
  simp [all_children]

/-- C1 counterexample: it is not the case that every execution order the
scheduler may pick runs `generate_mipmaps` before
`consolidate_material_instances` — the order that runs the consolidator
first satisfies every (i.e., no) explicit constraint `main` registered. -/
theorem update_ordering_counterexample :
    ¬ (∀ order, ValidScheduleOrder order →
        VisitedBeforeSys UpdateSystem.generateMipmaps
          UpdateSystem.consolidateMaterialInstances order) := by
  intro hclaim
  have hvalid : ValidScheduleOrder
      [UpdateSystem.consolidateMaterialInstances, UpdateSystem.generateMipmaps,
       UpdateSystem.procScene, UpdateSystem.inputSystem,
       UpdateSystem.benchmarkSystem] := by
    refine ⟨by decide, ?_⟩
    intro c hc
    simp [updateOrderingConstraints] at hc
  have h := hclaim _ hvalid
  have : ¬ List.Sublist
      [UpdateSystem.generateMipmaps, UpdateSystem.consolidateMaterialInstances]
      [UpdateSystem.consolidateMaterialInstances, UpdateSystem.generateMipmaps,
       UpdateSystem.procScene, UpdateSystem.inputSystem,
       UpdateSystem.benchmarkSystem] := by decide
  exact this h

/-- C1 (amended): `main` registers both `generate_mipmaps` and
`consolidate_material_instances` in the `Update` schedule, but the plain
tuple attaches no ordering constraint between them, so both relative
orders are valid schedules: the Orchestrator-before-Consolidator order the
spec requires is permitted but not guaranteed. -/
theorem update_systems_unordered :
    UpdateSystem.generateMipmaps ∈ updateSystems ∧
    UpdateSystem.consolidateMaterialInstances ∈ updateSystems ∧
    updateOrderingConstraints = [] ∧
    (∃ order, ValidScheduleOrder order ∧
        VisitedBeforeSys UpdateSystem.generateMipmaps
          UpdateSystem.consolidateMaterialInstances order) ∧
    (∃ order, ValidScheduleOrder order ∧
        VisitedBeforeSys UpdateSystem.consolidateMaterialInstances
          UpdateSystem.generateMipmaps order) := by
  refine ⟨by decide, by decide, rfl, ?_, ?_⟩
  · refine ⟨updateSystems, ⟨List.Perm.refl _, ?_⟩, ?_⟩
    · intro c hc
      simp [updateOrderingConstraints] at hc
    · exact (by decide : List.Sublist
        [UpdateSystem.generateMipmaps, UpdateSystem.consolidateMaterialInstances]
        updateSystems)
  · refine ⟨[UpdateSystem.consolidateMaterialInstances,
        UpdateSystem.generateMipmaps, UpdateSystem.procScene,
        UpdateSystem.inputSystem, UpdateSystem.benchmarkSystem],
      ⟨by decide, ?_⟩, ?_⟩
    · intro c hc
      simp [updateOrderingConstraints] at hc
    · exact (by decide : List.Sublist
        [UpdateSystem.consolidateMaterialInstances, UpdateSystem.generateMipmaps]
        [UpdateSystem.consolidateMaterialInstances, UpdateSystem.generateMipmaps,
         UpdateSystem.procScene, UpdateSystem.inputSystem,
         UpdateSystem.benchmarkSystem])

/-- C4: the offline converter runs iff the `convert` switch is passed,
exactly once per invocation, before the interactive app starts, and in the
order: first `convert_images_to_ktx2`, then `change_gltf_to_use_ktx2`. -/
theorem mainEvents_convert_once (args : Args) :
    (mainEvents args).count MainEvent.convertImages
        = (if args.convert then 1 else 0) ∧
    (mainEvents args).count MainEvent.changeGltf
        = (if args.convert then 1 else 0) ∧
    (mainEvents args).count MainEvent.appRun = 1 ∧
    mainEvents args = (if args.convert
      then [MainEvent.convertImages, MainEvent.changeGltf, MainEvent.appRun]
      else [MainEvent.appRun]) := by
  obtain ⟨c, i, m, f, p⟩ := args
  cases c <;> simp [mainEvents, List.count_cons]

theorem cullStep_idem (e : CullEntity) : cullStep (cullStep e) = cullStep e := by
  obtain ⟨i, m, c⟩ := e
  cases m <;> cases c <;> simp [cullStep]

/-- C10: `add_no_frustum_culling` is idempotent — running it again after
its effects are applied changes no entity — it only ever inserts
`NoFrustumCulling` on entities that hold a `StandardMaterial` handle and
lack it, and entities without a `StandardMaterial` handle are never
touched. -/
theorem add_no_frustum_culling_idempotent (w : List CullEntity) :
    add_no_frustum_culling (add_no_frustum_culling w) = add_no_frustum_culling w ∧
    (∀ (i : Nat) (e : CullEntity), w[i]? = some e → e.hasStdMat = false →
        (add_no_frustum_culling w)[i]? = some e) ∧
    (∀ (i : Nat) (e : CullEntity), w[i]? = some e →
        (add_no_frustum_culling w)[i]? = some e ∨
        (e.hasStdMat = true ∧ e.noFrustumCulling = false ∧
          (add_no_frustum_culling w)[i]?
            = some { e with noFrustumCulling := true })) := by
  refine ⟨?_, ?_, ?_⟩
  · simp only [add_no_frustum_culling, List.map_map]
    induction w with
    | nil => rfl
    | cons e es ih =>
      simp only [List.map_cons, Function.comp_apply, cullStep_idem]
      simp only [List.map_map] at ih
      rw [ih]
  · intro i e he hm
    simp only [add_no_frustum_culling, List.getElem?_map, he, Option.map_some']
    have : cullStep e = e := by simp [cullStep, hm]
    rw [this]
  · intro i e he
    simp only [add_no_frustum_culling, List.getElem?_map, he, Option.map_some']
    obtain ⟨j, m, c⟩ := e
    cases m <;> cases c <;> simp [cullStep]

/-- Witness for C10 on a two-entity world: one entity with a material and
no `NoFrustumCulling`, one without a material; the second pass is a no-op
and the material-less entity is untouched. -/
theorem add_no_frustum_culling_idempotent_witness :
    add_no_frustum_culling (add_no_frustum_culling
        [⟨0, true, false⟩, ⟨1, false, false⟩])
      = add_no_frustum_culling [⟨0, true, false⟩, ⟨1, false, false⟩] ∧
    (add_no_frustum_culling [⟨0, true, false⟩, ⟨1, false, false⟩])[1]?
      = some ⟨1, false, false⟩ := by
  refine ⟨(add_no_frustum_culling_idempotent
      [⟨0, true, false⟩, ⟨1, false, false⟩]).1, ?_⟩
  exact (add_no_frustum_culling_idempotent
      [⟨0, true, false⟩, ⟨1, false, false⟩]).2.1 1 ⟨1, false, false⟩ rfl rfl

/-- C9 counterexample: at frame `3 * count_per_step` the benchmark does
end (`bench_started` becomes `None`, the camera returns to `CAM_POS_1`),
but the unconditional trailing `*bench_frame += 1` leaves `bench_frame`
at 1, not 0 — run at `count_per_step = 30`, `bench_frame = 90`. -/
theorem benchmark_end_frame_counterexample :
    (benchmarkStep false 0 0 true ⟨some 0, 90, 30, CamTag.pos3⟩).benchStarted
        = none ∧
    (benchmarkStep false 0 0 true ⟨some 0, 90, 30, CamTag.pos3⟩).camera
        = CamTag.pos1 ∧
    ¬ (benchmarkStep false 0 0 true ⟨some 0, 90, 30, CamTag.pos3⟩).benchFrame
        = 0 ∧
    (benchmarkStep false 0 0 true ⟨some 0, 90, 30, CamTag.pos3⟩).benchFrame
        = 1 := by
  decide

/-- C9 (amended): when `B` is pressed while no benchmark is running, the
chosen `count_per_step` is at least 30 and the camera is set to
`CAM_POS_1` on that first benchmark frame; the camera is set to
`CAM_POS_2` at frame `count_per_step` and `CAM_POS_3` at
`2*count_per_step`; at frame `3*count_per_step` the benchmark ends with
`bench_started` reset to `None` and the camera restored to `CAM_POS_1`,
while the trailing increment leaves `bench_frame` at 1 (it is reset to 0
only when the next benchmark starts).  Without a press and with no
benchmark running the system is a no-op. -/
theorem benchmark_behavior (bPressed : Bool) (rawCount now : Nat)
    (s : BenchState) :
    (s.benchStarted = none → bPressed = true →
      benchmarkStep bPressed rawCount now true s
          = ⟨some now, 1, max rawCount 30, CamTag.pos1⟩ ∧
      30 ≤ (benchmarkStep bPressed rawCount now true s).countPerStep) ∧
    (∀ t : Nat, s.benchStarted = some t → 0 < s.countPerStep →
      (s.benchFrame = s.countPerStep →
        benchmarkStep bPressed rawCount now true s
          = ⟨some t, s.countPerStep + 1, s.countPerStep, CamTag.pos2⟩) ∧
      (s.benchFrame = s.countPerStep * 2 →
        benchmarkStep bPressed rawCount now true s
          = ⟨some t, s.countPerStep * 2 + 1, s.countPerStep, CamTag.pos3⟩) ∧
      (s.benchFrame = s.countPerStep * 3 →
        benchmarkStep bPressed rawCount now true s
          = ⟨none, 1, s.countPerStep, CamTag.pos1⟩)) ∧
    (s.benchStarted = none → bPressed = false →
      benchmarkStep bPressed rawCount now true s = s) := by
  obtain ⟨st, fr, cp, cam⟩ := s
  refine ⟨?_, ?_, ?_⟩
  · intro hst hb
    dsimp only at hst
    subst hst
    subst hb
    have hres : benchmarkStep true rawCount now true ⟨none, fr, cp, cam⟩
        = ⟨some now, 1, max rawCount 30, CamTag.pos1⟩ := by
      simp [benchmarkStep]
    exact ⟨hres, by rw [hres]; exact Nat.le_max_right _ _⟩
  · intro t hst hpos
    dsimp only at hst hpos
    subst hst
    refine ⟨?_, ?_, ?_⟩
    · intro hf
      dsimp only at hf
      have hne : ¬ (cp = 0) := by omega
      simp [benchmarkStep, hf, hne]
    · intro hf
      dsimp only at hf
      have h1 : ¬ (cp * 2 = 0) := by omega
      have h2 : ¬ (cp * 2 = cp) := by omega
      simp [benchmarkStep, hf, h1, h2]
    · intro hf
      dsimp only at hf
      have h1 : ¬ (cp * 3 = 0) := by omega
      have h2 : ¬ (cp * 3 = cp) := by omega
      have h3 : ¬ (cp * 3 = cp * 2) := by omega
      simp [benchmarkStep, hf, h1, h2, h3]
  · intro hst hb
    dsimp only at hst
    subst hst
    subst hb
    simp [benchmarkStep]

/-- Witness for C9 (amended): pressing `B` at a fresh state starts a
benchmark with `count_per_step = 30` and the camera at `CAM_POS_1`;
a running benchmark at frame `count_per_step = 30` moves the camera to
`CAM_POS_2`. -/
theorem benchmark_behavior_witness :
    benchmarkStep true 0 7 true ⟨none, 5, 0, CamTag.other⟩
        = ⟨some 7, 1, 30, CamTag.pos1⟩ ∧
    benchmarkStep false 0 0 true ⟨some 3, 30, 30, CamTag.pos1⟩
        = ⟨some 3, 31, 30, CamTag.pos2⟩ := by
  constructor
  · exact ((benchmark_behavior true 0 7 ⟨none, 5, 0, CamTag.other⟩).1 rfl rfl).1
  · exact ((benchmark_behavior false 0 0 ⟨some 3, 30, 30, CamTag.pos1⟩).2.1
      3 rfl (by decide)).1 rfl

theorem max_half_lt (w h : Nat) (hb : ¬(w ≤ 1 ∧ h ≤ 1)) :
    max (max 1 (w / 2)) (max 1 (h / 2)) < max w h := by
  have h2 : 2 ≤ max w h := by
    have : 2 ≤ w ∨ 2 ≤ h := by omega
    rcases this with h' | h'
    · exact le_trans h' (Nat.le_max_left w h)
    · exact le_trans h' (Nat.le_max_right w h)
  have k1 : w / 2 ≤ max w h / 2 := Nat.div_le_div_right (Nat.le_max_left _ _)
  have k2 : h / 2 ≤ max w h / 2 := Nat.div_le_div_right (Nat.le_max_right _ _)
  refine Nat.max_lt.mpr ⟨Nat.max_lt.mpr ⟨?_, ?_⟩, Nat.max_lt.mpr ⟨?_, ?_⟩⟩ <;> omega

theorem mipChainDims_head (w h : Nat) : (mipChainDims w h)[0]? = some (w, h) := by
  rw [mipChainDims]
  split <;> simp

theorem log2_step (m : Nat) (h : 2 ≤ m) :
    Nat.log2 m = Nat.log2 (m / 2) + 1 := by
  rw [Nat.log2]
  simp [h]

theorem max_clamp_half (w h : Nat) (h2 : 2 ≤ max w h) :
    max (max 1 (w / 2)) (max 1 (h / 2)) = max w h / 2 := by
  rcases Nat.le_total w h with hle | hle
  · rw [Nat.max_eq_right hle] at h2 ⊢
    have hd : w / 2 ≤ h / 2 := Nat.div_le_div_right hle
    have e1 : max 1 (h / 2) = h / 2 := Nat.max_eq_right (by omega)
    rw [e1]
    exact Nat.max_eq_right (Nat.max_le.mpr ⟨by omega, hd⟩)
  · rw [Nat.max_eq_left hle] at h2 ⊢
    have hd : h / 2 ≤ w / 2 := Nat.div_le_div_right hle
    have e1 : max 1 (w / 2) = w / 2 := Nat.max_eq_right (by omega)
    rw [e1]
    exact Nat.max_eq_left (Nat.max_le.mpr ⟨by omega, hd⟩)

theorem mipChainDims_length_aux :
    ∀ n w h, max w h ≤ n → 0 < w → 0 < h →
      (mipChainDims w h).length = Nat.log2 (max w h) + 1 := by
  intro n
  induction n with
  | zero =>
    intro w h hn hw hh
    have := Nat.le_max_left w h
    omega
  | succ n ih =>
    intro w h hn hw hh
    rw [mipChainDims]
    split
    · next hb =>
      have hw1 : w = 1 := by omega
      have hh1 : h = 1 := by omega
      subst hw1
      subst hh1
      simp [Nat.log2]
    · next hb =>
      have h2 : 2 ≤ max w h := by
        have : 2 ≤ w ∨ 2 ≤ h := by omega
        rcases this with h' | h'
        · exact le_trans h' (Nat.le_max_left w h)
        · exact le_trans h' (Nat.le_max_right w h)
      have hlt := max_half_lt w h hb
      have hrec := ih (max 1 (w / 2)) (max 1 (h / 2)) (by omega)
        (Nat.le_max_left 1 _) (Nat.le_max_left 1 _)
      simp only [List.length_cons, hrec]
      rw [max_clamp_half w h h2, ← log2_step (max w h) h2]

theorem mipChainDims_succ (k : Nat) :
    ∀ w h d1 d2, (mipChainDims w h)[k]? = some d1 →
      (mipChainDims w h)[k + 1]? = some d2 →
      d2 = (max 1 (d1.1 / 2), max 1 (d1.2 / 2)) := by
  induction k with
  | zero =>
    intro w h d1 d2 h0 h1
    rw [mipChainDims] at h0 h1
    by_cases hb : (w ≤ 1 ∧ h ≤ 1)
    · simp [hb] at h1
    · simp only [if_neg hb] at h0 h1
      simp only [List.getElem?_cons_zero, Option.some.injEq] at h0
      simp only [List.getElem?_cons_succ] at h1
      rw [mipChainDims_head] at h1
      subst h0
      simp only [Option.some.injEq] at h1
      exact h1.symm
  | succ k ih =>
    intro w h d1 d2 h0 h1
    rw [mipChainDims] at h0 h1
    by_cases hb : (w ≤ 1 ∧ h ≤ 1)
    · simp [hb] at h1
    · simp only [if_neg hb, List.getElem?_cons_succ] at h0 h1
      exact ih _ _ d1 d2 h0 h1

/-- C6: for every image with `width × height > 0`, the Mipmap Generator's
chain has length `floor(log2(max(width, height))) + 1`, clamped to the
configured level-count limit; the chain starts at the source dimensions,
and level `k+1` has dimensions `max 1 (level_k.width / 2) ×
max 1 (level_k.height / 2)`, each level computed from the immediately
higher-resolution level. -/
theorem mipmap_chain_length_dims (cap w h : Nat) (hw : 0 < w) (hh : 0 < h) :
    (mipChainDims w h).length = Nat.log2 (max w h) + 1 ∧
    (mipChainLevels cap w h).length = min cap (Nat.log2 (max w h) + 1) ∧
    (mipChainDims w h)[0]? = some (w, h) ∧
    (∀ k d1 d2, (mipChainDims w h)[k]? = some d1 →
        (mipChainDims w h)[k + 1]? = some d2 →
        d2 = (max 1 (d1.1 / 2), max 1 (d1.2 / 2))) := by
  have hlen := mipChainDims_length_aux (max w h) w h (le_refl _) hw hh
  refine ⟨hlen, ?_, mipChainDims_head w h, fun k => mipChainDims_succ k w h⟩
  rw [mipChainLevels, List.length_take, hlen]

/-- Witness for C6 at a 4×2 source: the full chain has the 3 levels
(4,2), (2,1), (1,1), and a level cap of 2 clamps it to 2 levels. -/
theorem mipmap_chain_length_dims_witness :
    (mipChainDims 4 2).length = 3 ∧
    (mipChainLevels 2 4 2).length = 2 ∧
    (mipChainDims 4 2)[0]? = some (4, 2) := by
  have h := mipmap_chain_length_dims 2 4 2 (by decide) (by decide)
  have hlog : Nat.log2 (max 4 2) + 1 = 3 := by
    simp [Nat.log2]
  refine ⟨?_, ?_, h.2.2.1⟩
  · rw [h.1, hlog]
  · rw [h.2.1, hlog]
    decide

/-- C7: for every fingerprint `f` and blob `b`, `store(f, b)` followed by
`lookup(f)` returns `Some` of a blob byte-identical to `b`, and `store` is
idempotent: storing the same fingerprint twice with byte-identical content
is a no-op. -/
theorem cache_roundtrip_store_idempotent (c : Cache) (f : Fingerprint) (b : Blob) :
    (Cache.store c f b).lookup f = some b ∧
    Cache.store (Cache.store c f b) f b = Cache.store c f b := by
  induction c with
  | nil => simp [Cache.store, Cache.lookup]
  | cons e rest ih =>
    obtain ⟨g, d⟩ := e
    by_cases hg : g = f
    · subst hg
      simp [Cache.store, Cache.lookup]
    · simp [Cache.store, Cache.lookup, hg, ih]

theorem processAsset_processed (cfg : PipelineSettings)
    (lookupFn : Fingerprint → Option Blob) (a : ImageAsset)
    (h : a.processed = true) :
    processAsset cfg lookupFn a = (a, ProcPath.skipped) := by
  simp [processAsset, h]

theorem processAsset_unprocessed (cfg : PipelineSettings)
    (lookupFn : Fingerprint → Option Blob) (a : ImageAsset)
    (h : a.processed = false) :
    (processAsset cfg lookupFn a).1.processed = true ∧
    (processAsset cfg lookupFn a).2 ≠ ProcPath.skipped := by
  cases hl : (if cfg.cacheEnabled then lookupFn (assetFingerprint cfg a) else none) with
  | none => simp [processAsset, h, hl]
  | some blob => simp [processAsset, h, hl]

theorem processRefs_processed (cfg : PipelineSettings)
    (lookupFn : Fingerprint → Option Blob) (a : ImageAsset) (n : Nat)
    (h : a.processed = true) :
    processRefs cfg lookupFn a n = (a, 0) := by
  induction n with
  | zero => rfl
  | succ n ih => simp [processRefs, processAsset_processed cfg lookupFn a h, ih]

/-- C5: for every `ImageAsset`, regardless of how many materials reference
it, at most one generate-or-fetch path executes across a full run: a full
run over an unprocessed asset executes exactly one such path and leaves
the asset `processed = true` — unconditionally, for every configuration,
including compression configured off (pass-through counts as processed) —
and once `processed == true` the asset is never reprocessed. -/
theorem orchestrator_at_most_once (cfg : PipelineSettings)
    (lookupFn : Fingerprint → Option Blob) (a : ImageAsset) (n : Nat) :
    (a.processed = false → 1 ≤ n →
      (processRefs cfg lookupFn a n).1.processed = true ∧
      (processRefs cfg lookupFn a n).2 = 1) ∧
    (a.processed = false →
      (processAsset cfg lookupFn a).1.processed = true ∧
      (processAsset cfg lookupFn a).2 ≠ ProcPath.skipped) ∧
    (a.processed = true → processRefs cfg lookupFn a n = (a, 0)) := by
  refine ⟨?_, processAsset_unprocessed cfg lookupFn a,
    processRefs_processed cfg lookupFn a n⟩
  intro ha hn
  obtain ⟨m, rfl⟩ : ∃ m, n = m + 1 := ⟨n - 1, by omega⟩
  have h1 := processAsset_unprocessed cfg lookupFn a ha
  simp only [processRefs]
  rw [processRefs_processed cfg lookupFn _ m h1.1]
  simp [h1.1, h1.2]

/-- Witness for C5: a full run with two references to a fresh 1×1 asset,
compression and caching both off, leaves the asset processed and executes
exactly one generate-or-fetch path. -/
theorem orchestrator_at_most_once_witness :
    (processRefs ⟨false, false⟩ (fun _ => none)
        ⟨[], 1, 1, false, []⟩ 2).1.processed = true ∧
    (processRefs ⟨false, false⟩ (fun _ => none) ⟨[], 1, 1, false, []⟩ 2).2 = 1 :=
  (orchestrator_at_most_once ⟨false, false⟩ (fun _ => none)
    ⟨[], 1, 1, false, []⟩ 2).1 rfl (by omega)

/-- C8: cache lookup never propagates an error upward: `lookup` returns an
`Option`; a failed read returns `none`, a deserialize failure returns
`none`, every `some` result comes from a successful read and deserialize,
and after a `none` the Orchestrator falls back to recomputation (the
generated path runs). -/
theorem cache_lookup_never_errors (disk : Fingerprint → Option (List Nat))
    (f : Fingerprint) :
    (disk f = none → diskLookup disk f = none) ∧
    (∀ raw e, disk f = some raw → deserializeEntry raw = Except.error e →
        diskLookup disk f = none) ∧
    (∀ b, diskLookup disk f = some b →
        ∃ raw, disk f = some raw ∧ deserializeEntry raw = Except.ok b) ∧
    (∀ cfg a, a.processed = false →
        diskLookup disk (assetFingerprint cfg a) = none →
        (processAsset cfg (diskLookup disk) a).2 = ProcPath.generated) := by
  refine ⟨?_, ?_, ?_, ?_⟩
  · intro h
    simp [diskLookup, h]
  · intro raw e h1 h2
    simp [diskLookup, h1, h2]
  · intro b hb
    cases hd : disk f with
    | none => simp [diskLookup, hd] at hb
    | some raw =>
      cases hds : deserializeEntry raw with
      | error e => simp [diskLookup, hd, hds] at hb
      | ok c =>
        refine ⟨raw, rfl, ?_⟩
        simp [diskLookup, hd, hds] at hb
        rw [hds, hb]
  · intro cfg a ha hnone
    cases hc : cfg.cacheEnabled with
    | false => simp [processAsset, ha, hc]
    | true => simp [processAsset, ha, hc, hnone]

/-- Witness for C8: a storage whose only entry (fingerprint 0) claims 5
bytes but holds none deserializes with an error, and fingerprint 1 fails
to read at all; both lookups return `none`. -/
theorem cache_lookup_never_errors_witness :
    diskLookup (fun g => if g = 0 then some [5] else none) 0 = none ∧
    diskLookup (fun g => if g = 0 then some [5] else none) 1 = none := by
  refine ⟨?_, ?_⟩
  · exact (cache_lookup_never_errors (fun g => if g = 0 then some [5] else none)
      0).2.1 [5] "truncated cache entry" rfl rfl
  · exact (cache_lookup_never_errors (fun g => if g = 0 then some [5] else none)
      1).1 rfl
